import Mathlib

/-!
# Verification of the `outlived` CLI against its design specification

The program (`outlived.go`, package `main`) imports a CSV of deceased
musicians into a Redis sorted set keyed by age-at-death in days, and answers
range queries that print the stored records around a caller-supplied
reference date, inserting a ">>> YOU ARE HERE" marker line at the caller's
own position.

This file is a shallow embedding of the program's logic:

* Go strings are modelled as `List Char` (Go indexes bytes; every string the
  program manipulates is ASCII, so `List Char` is faithful).
* `time.Parse("2006-01-02", s)` is modelled by `parseDate`, which accepts
  exactly ten characters `dddd-dd-dd` denoting a valid proleptic Gregorian
  calendar date (this is the set of strings Go's parser accepts for that
  layout, years 0000-9999).
* The day difference `int(dd.Sub(bd).Hours() / 24)` between two parsed
  midnight-UTC dates is exactly the difference of their civil day numbers;
  `dayNumber` is a civil day-number function (days measured from a fixed
  epoch), so `getAgeInDays` returns the exact signed day count.
* Fatal exits (`log.Fatal`) and index-out-of-range aborts are modelled by
  `Except GoError` / `Option`: a `none` / `.error` result means the process
  died before producing its value.  The Go program prints its output
  incrementally and may die mid-output; we model only the two observable
  outcomes "completed with these lines" and "aborted".
* The Redis sorted set is modelled by `Store`, a list of (score, member)
  pairs kept in ascending score order; `zadd` replaces an existing member,
  `zrangebyscore` filters an inclusive score window (ascending), and the
  import's MULTI/DEL/ZADD.../EXEC transaction is `storeRecordsInRedis`,
  which discards the previous dataset and folds `zadd` from the empty set.
-/

/-- A character is a decimal digit (`0`-`9`). -/
def isDigitCh (c : Char) : Bool := '0' ≤ c && c ≤ '9'

/-- Numeric value of a decimal digit character. -/
def digitVal (c : Char) : Nat := c.toNat - 48

/-- Proleptic Gregorian leap-year rule, as used by Go's `time` package. -/
def isLeapYear (y : Nat) : Bool := y % 4 == 0 && (!(y % 100 == 0) || y % 400 == 0)

/-- A parsed calendar date (year 0000-9999, month 1-12, day 1-31). -/
structure Date where
  year : Nat
  month : Nat
  day : Nat
deriving DecidableEq, Repr

/-- Number of days in a month of a given year (Gregorian). -/
def daysInMonth (y m : Nat) : Nat :=
  if m = 2 then (if isLeapYear y then 29 else 28)
  else if m = 4 ∨ m = 6 ∨ m = 9 ∨ m = 11 then 30
  else 31

/-- The calendar-validity condition enforced by Go's date parser. -/
abbrev Date.valid (dt : Date) : Prop :=
  1 ≤ dt.month ∧ dt.month ≤ 12 ∧ 1 ≤ dt.day ∧ dt.day ≤ daysInMonth dt.year dt.month

/-- Chronological order on dates: lexicographic on (year, month, day). -/
abbrev Date.le (a b : Date) : Prop :=
  a.year < b.year ∨
    (a.year = b.year ∧ (a.month < b.month ∨ (a.month = b.month ∧ a.day ≤ b.day)))

/-- The range validation Go's parser applies to the numeric (year, month,
day) triple: month 1-12 and day within the month. -/
def mkValidDate (y m d : Nat) : Option Date :=
  if 1 ≤ m ∧ m ≤ 12 ∧ 1 ≤ d ∧ d ≤ daysInMonth y m then some ⟨y, m, d⟩ else none

/-- Model of `time.Parse(DATE_FMT, s)` for `DATE_FMT = "2006-01-02"`:
exactly ten characters, digits in the `Y`/`M`/`D` positions, dashes in
between, and the (year, month, day) triple a valid calendar date.
Returns `none` where Go returns a parse error (a fatal exit upstream). -/
def parseDate : List Char → Option Date
  | [y1, y2, y3, y4, s1, m1, m2, s2, d1, d2] =>
    if isDigitCh y1 && isDigitCh y2 && isDigitCh y3 && isDigitCh y4 &&
        (s1 == '-') && isDigitCh m1 && isDigitCh m2 && (s2 == '-') &&
        isDigitCh d1 && isDigitCh d2 then
      mkValidDate (digitVal y1 * 1000 + digitVal y2 * 100 + digitVal y3 * 10 + digitVal y4)
        (digitVal m1 * 10 + digitVal m2) (digitVal d1 * 10 + digitVal d2)
    else none
  | _ => none

/-- Days before January 1 of year `y`, measured from a fixed epoch.
The epoch offset 399 shifts the computation into `Nat` while preserving the
400-year leap pattern, so differences of `daysBeforeYear` agree with the
civil (proleptic Gregorian) calendar that Go's `time` package computes with. -/
def daysBeforeYear (y : Nat) : Nat :=
  365 * (y + 399) + (y + 399) / 4 - (y + 399) / 100 + (y + 399) / 400

/-- Days from January 1 to the first of month `m` in year `y`. -/
def daysBeforeMonth (y : Nat) : Nat → Nat
  | 0 => 0
  | 1 => 0
  | m + 2 => daysBeforeMonth y (m + 1) + daysInMonth y (m + 1)

/-- Civil day number of a date (days since the epoch of `daysBeforeYear`). -/
def dayNumber (dt : Date) : Nat :=
  daysBeforeYear dt.year + daysBeforeMonth dt.year dt.month + (dt.day - 1)

/-- Model of `getAgeInDays(d1, d2)` (source lines 191-201): parse both date
strings and return the signed number of whole days from `d1` to `d2`.
`none` models the `log.Fatalf` exit on an unparseable date.  For two
midnight-UTC `time.Time` values the Go expression
`int(dd.Sub(bd).Hours() / 24)` is exactly the difference of civil day
numbers (the duration is a whole number of days and the float arithmetic on
it is exact). -/
def getAgeInDays (d1 d2 : List Char) : Option Int :=
  match parseDate d1, parseDate d2 with
  | some bd, some dd => some ((dayNumber dd : Int) - (dayNumber bd : Int))
  | _, _ => none

example : parseDate "2000-01-01".toList = some ⟨2000, 1, 1⟩ := by decide
example : parseDate "2000-02-30".toList = none := by decide
example : parseDate "2000-13-01".toList = none := by decide
example : getAgeInDays "2000-01-01".toList "2000-01-02".toList = some 1 := by decide
example : getAgeInDays "1999-12-31".toList "2000-01-01".toList = some 1 := by decide
example : getAgeInDays "2000-02-28".toList "2000-03-01".toList = some 2 := by decide
example : getAgeInDays "1900-02-28".toList "1900-03-01".toList = some 1 := by decide

/-- The record type (source lines 43-47). Go strings become `List Char`. -/
structure Person where
  Name : List Char
  BirthDate : List Char
  DeathDate : List Char
deriving DecidableEq, Repr

/-- Model of the `String()` method (source lines 49-51):
`fmt.Sprintf("%s,%s,%s", rec.Name, rec.BirthDate, rec.DeathDate)`. -/
def Person.string (p : Person) : List Char :=
  p.Name ++ ',' :: p.BirthDate ++ ',' :: p.DeathDate

/-- Model of Go `strings.Split(row, ",")`: split at every comma, keeping
empty fields; a string with `n` commas yields `n + 1` fields. -/
def splitOnComma : List Char → List (List Char)
  | [] => [[]]
  | c :: rest =>
    if c = ',' then [] :: splitOnComma rest
    else
      match splitOnComma rest with
      | [] => [[c]]
      | f :: fs => (c :: f) :: fs

example : splitOnComma "a,bc,d".toList = ["a".toList, "bc".toList, "d".toList] := by decide
example : splitOnComma "ab".toList = ["ab".toList] := by decide
example : splitOnComma ",".toList = [[], []] := by decide

/-- The two ways the process aborts: a Go runtime index-out-of-range abort,
or a `log.Fatal` exit after writing a log line. -/
inductive GoError where
  | indexOutOfRange
  | fatalLog
deriving DecidableEq, Repr

/-- One fetched member after the per-row field extraction of `doQuery`
(source lines 112-118): the name field and the recomputed age in days. -/
structure QRow where
  name : List Char
  age : Int
deriving DecidableEq, Repr

/-- One line of query output: a record line
(`"%-30s (died aged %s)\n"` with the name and formatted age) or the
`">>> YOU ARE HERE"` marker line printed by `printUserAge` with the
reference age. -/
inductive OutLine where
  | record (name : List Char) (age : Int)
  | marker (userAge : Int)
deriving DecidableEq, Repr

/-- Is this output line the marker line? -/
def OutLine.isMarker : OutLine → Bool
  | .marker _ => true
  | .record _ _ => false

/-- Is this output line a record line? -/
def OutLine.isRecord : OutLine → Bool
  | .marker _ => false
  | .record _ _ => true

/-- The record line printed for one fetched row. -/
def recLine (q : QRow) : OutLine := OutLine.record q.name q.age

/-- The record lines of a row list, in order. -/
def recLines (rows : List QRow) : List OutLine := rows.map recLine

/-- Number of marker lines in an output list. -/
def markerCount (lines : List OutLine) : Nat := lines.countP OutLine.isMarker

/-- The marker-insertion scan of `doQuery` (source lines 110-127), with the
per-row field extraction already performed.  `lastAge` is the running
previous score, initially 0 at the call site; each iteration prints the
marker when `userAge >= lastAge && userAge < age`, prints the record line,
and sets `lastAge = age`; after the loop the marker is printed when
`userAge >= lastAge`. -/
def queryScan (userAge : Int) : Int → List QRow → List OutLine
  | lastAge, [] => if lastAge ≤ userAge then [OutLine.marker userAge] else []
  | lastAge, r :: rest =>
    (if lastAge ≤ userAge ∧ userAge < r.age then [OutLine.marker userAge] else []) ++
      OutLine.record r.name r.age :: queryScan userAge r.age rest

/-- Per-row work of the `doQuery` loop body (source lines 112-118): split
the fetched member on commas, index fields 0, 1, 2 (an out-of-range index
aborts the process), and recompute the age from the birth and death fields
(`log.Fatal` on an unparseable date). -/
def memberRow (row : List Char) : Except GoError QRow :=
  let fields := splitOnComma row
  match fields[0]?, fields[1]?, fields[2]? with
  | some name, some bday, some dday =>
    match getAgeInDays bday dday with
    | some age => Except.ok ⟨name, age⟩
    | none => Except.error GoError.fatalLog
  | _, _, _ => Except.error GoError.indexOutOfRange

/-- The `doQuery` result loop (source lines 110-127) over the fetched
members, producing the printed lines; an error models the process dying
mid-scan (in which case the lines printed before the abort are lost with
the process and are not modelled). -/
def doQueryLoop (userAge : Int) : Int → List (List Char) → Except GoError (List OutLine)
  | lastAge, [] => Except.ok (if lastAge ≤ userAge then [OutLine.marker userAge] else [])
  | lastAge, row :: rest =>
    match memberRow row with
    | Except.error e => Except.error e
    | Except.ok r =>
      match doQueryLoop userAge r.age rest with
      | Except.error e => Except.error e
      | Except.ok tail =>
        Except.ok
          ((if lastAge ≤ userAge ∧ userAge < r.age then [OutLine.marker userAge] else []) ++
            OutLine.record r.name r.age :: tail)

/-- The output phase of `doQuery`: scan the fetched members with the
previous score initialised to 0. -/
def doQueryLines (userAge : Int) (results : List (List Char)) : Except GoError (List OutLine) :=
  doQueryLoop userAge 0 results

/-- Model of Go `fmt.Sprintf("%3d", n)`: decimal rendering right-justified
in a field of width 3 (wider numbers are not truncated). -/
def pad3 (n : Int) : String :=
  let s := toString n
  String.mk (List.replicate (3 - s.length) ' ') ++ s

/-- Model of `formatAgeInYearsAndDays` (source lines 137-142).  The Go code
computes `int(float64(days) / 365.25)` and `int(math.Mod(float64(days),
365.25))`.  Since 365.25 = 1461/4 is exactly representable in float64 and
every day count this program produces is far below 2^52, the float
computation is exact: the year count is `days / 365.25` truncated toward
zero, i.e. `(4 * days).tdiv 1461`, and the remainder is
`days - 365.25 * years = (4 * days - 1461 * years) / 4` truncated toward
zero.  We embed that exact integer arithmetic. -/
def formatAgeInYearsAndDays (days : Int) : String :=
  let ageInYears : Int := (4 * days).tdiv 1461
  let ageInDays : Int := (4 * days - 1461 * ageInYears).tdiv 4
  pad3 ageInYears ++ " years and " ++ pad3 ageInDays ++ " days"

example : formatAgeInYearsAndDays 0 = "  0 years and   0 days" := by decide
example : formatAgeInYearsAndDays 365 = "  0 years and 365 days" := by decide
example : formatAgeInYearsAndDays 731 = "  2 years and   0 days" := by decide
example : formatAgeInYearsAndDays 36890 = "100 years and 365 days" := by decide

/-- The Redis sorted set `musicians`: (score, member) pairs in ascending
score order (the relative order of equal scores is not observed by any
property below; Redis orders ties lexicographically by member). -/
abbrev Store := List (Int × List Char)

/-- Insert a scored member into a score-sorted list, after all entries with
score at most the new score. -/
def insertByScore (score : Int) (mem : List Char) : Store → Store
  | [] => [(score, mem)]
  | e :: rest =>
    if e.1 ≤ score then e :: insertByScore score mem rest
    else (score, mem) :: e :: rest

/-- Redis `ZADD`: remove any existing entry for the member, then insert it
with the new score. -/
def zadd (st : Store) (score : Int) (mem : List Char) : Store :=
  insertByScore score mem (st.filter (fun e => !(e.2 == mem)))

/-- Redis `ZRANGEBYSCORE key lo hi`: the members whose score lies in the
inclusive window, in ascending score order. -/
def zrangebyscore (st : Store) (lo hi : Int) : List (List Char) :=
  (st.filter (fun e => decide (lo ≤ e.1 ∧ e.1 ≤ hi))).map (fun e => e.2)

/-- The body of the import transaction (source lines 177-183): for each
record compute its age in days (`log.Fatal` on unparseable dates, modelled
by `none`) and `ZADD` it with the serialized record as member. -/
def importFold : Store → List Person → Option Store
  | st, [] => some st
  | st, r :: rest =>
    match getAgeInDays r.BirthDate r.DeathDate with
    | some age => importFold (zadd st age r.string) rest
    | none => none

/-- Model of `storeRecordsInRedis` (source lines 170-187): one MULTI/EXEC
transaction that first issues `DEL musicians` — discarding the previous
dataset, hence the fold starts from the empty store — and then one `ZADD`
per record. -/
def storeRecordsInRedis (_prev : Store) (records : List Person) : Option Store :=
  importFold [] records

/-- Model of the row loop of `readCSVFileContents` (source lines 160-166):
each parsed CSV row is indexed at positions 0, 1 and 2 to build a `Person`;
a missing field is a runtime index-out-of-range abort, not a logged fatal
error. -/
def rowRecord (row : List (List Char)) : Except GoError Person :=
  match row[0]?, row[1]?, row[2]? with
  | some n, some b, some d => Except.ok ⟨n, b, d⟩
  | _, _, _ => Except.error GoError.indexOutOfRange

/-- Model of `readCSVFileContents` over the already-parsed CSV data (the
file I/O and the `csv.Reader`, which fail fatally on their own errors, are
upstream of the modelled loop): build one `Person` per row, in order,
stopping at the first abort. -/
def readCSVFileContents : List (List (List Char)) → Except GoError (List Person)
  | [] => Except.ok []
  | row :: rest => do
    let p ← rowRecord row
    let ps ← readCSVFileContents rest
    Except.ok (p :: ps)

example :
    storeRecordsInRedis [] [⟨"A".toList, "2000-01-01".toList, "2000-01-02".toList⟩] =
      some [(1, "A,2000-01-01,2000-01-02".toList)] := by decide
example :
    readCSVFileContents [["a".toList, "b".toList]] = Except.error GoError.indexOutOfRange := by
  rfl
example :
    queryScan 15 0 [⟨"a".toList, 10⟩, ⟨"b".toList, 20⟩, ⟨"c".toList, 30⟩] =
      [OutLine.record "a".toList 10, OutLine.marker 15, OutLine.record "b".toList 20,
        OutLine.record "c".toList 30] := by decide
example :
    queryScan 20 0 [⟨"a".toList, 5⟩, ⟨"b".toList, 10⟩] =
      [OutLine.record "a".toList 5, OutLine.record "b".toList 10, OutLine.marker 20] := by
  decide
example : queryScan (-1) 0 [] = [] := by decide
example :
    queryScan 20 0 [⟨"a".toList, 10⟩, ⟨"b".toList, 20⟩, ⟨"c".toList, 30⟩] =
      [OutLine.record "a".toList 10, OutLine.record "b".toList 20, OutLine.marker 20,
        OutLine.record "c".toList 30] := by decide

/-- "Returned in ascending score order": the fetched rows have pairwise
nondecreasing ages, as `ZRANGEBYSCORE` guarantees. -/
abbrev ScoreAscending (rows : List QRow) : Prop :=
  List.Pairwise (fun p q => p.age ≤ q.age) rows

/-- Record lines contain no marker. -/
theorem recLines_markerCount (rows : List QRow) : markerCount (recLines rows) = 0 := by
  simp [markerCount, recLines, List.countP_map, Function.comp_def, recLine, OutLine.isMarker]

/-- If the reference age is already strictly below the running previous
score and the remaining rows are ascending and at least that score, the
scan prints only record lines (the marker condition can never fire again,
in the loop or after it). -/
theorem queryScan_of_lt (userAge : Int) :
    ∀ (rows : List QRow) (lastAge : Int), userAge < lastAge →
      (∀ q ∈ rows, lastAge ≤ q.age) → ScoreAscending rows →
      queryScan userAge lastAge rows = recLines rows := by
  intro rows
  induction rows with
  | nil =>
    intro lastAge hlt _ _
    simp [queryScan, recLines]
    omega
  | cons r rest ih =>
    intro lastAge hlt hge hs
    rcases List.pairwise_cons.mp hs with ⟨hall, hrest⟩
    have hr : lastAge ≤ r.age := hge r (by simp)
    have h1 : ¬ (lastAge ≤ userAge ∧ userAge < r.age) := by
      intro hc
      omega
    simp only [queryScan, if_neg h1, List.nil_append, recLines, List.map_cons]
    rw [ih r.age (by omega) hall hrest]
    rfl

/-- If every fetched score is at most the reference age (and, when there
are no rows at all, so is the running previous score), the scan prints all
record lines followed by one marker after the loop. -/
theorem queryScan_all_le (userAge : Int) :
    ∀ (rows : List QRow) (lastAge : Int), (∀ q ∈ rows, q.age ≤ userAge) →
      (rows = [] → lastAge ≤ userAge) →
      queryScan userAge lastAge rows = recLines rows ++ [OutLine.marker userAge] := by
  intro rows
  induction rows with
  | nil =>
    intro lastAge _ hemp
    simp [queryScan, recLines, if_pos (hemp rfl)]
  | cons r rest ih =>
    intro lastAge hall hemp
    have hr : r.age ≤ userAge := hall r (by simp)
    have h1 : ¬ (lastAge ≤ userAge ∧ userAge < r.age) := by
      intro hc
      omega
    simp only [queryScan, if_neg h1, List.nil_append, recLines, List.map_cons]
    rw [ih r.age (fun q hq => hall q (by simp [hq])) (fun _ => hr)]
    rfl

/-- Scanning past a prefix whose scores are all at most the reference age
emits exactly that prefix's record lines and continues with the running
previous score equal to the prefix's last score. -/
theorem queryScan_low_run (userAge : Int) :
    ∀ (pre rest : List QRow) (lastAge : Int), (∀ q ∈ pre, q.age ≤ userAge) →
      queryScan userAge lastAge (pre ++ rest) =
        recLines pre ++ queryScan userAge ((pre.map QRow.age).getLastD lastAge) rest := by
  intro pre
  induction pre with
  | nil =>
    intro rest lastAge _
    simp [recLines]
  | cons p pre' ih =>
    intro rest lastAge hall
    have hp : p.age ≤ userAge := hall p (by simp)
    have h1 : ¬ (lastAge ≤ userAge ∧ userAge < p.age) := by
      intro hc
      omega
    simp only [List.cons_append, queryScan, if_neg h1, List.nil_append, List.map_cons,
      List.getLastD_cons, recLines, List.append_eq]
    rw [ih rest p.age (fun q hq => hall q (by simp [hq]))]
    rfl

/-- An element below every member of a list is below its `getLastD`. -/
theorem le_getLastD_of_le (a : Int) :
    ∀ (l : List Int) (d : Int), a ≤ d → (∀ x ∈ l, a ≤ x) → a ≤ l.getLastD d := by
  intro l
  induction l with
  | nil =>
    intro d had _
    simpa using had
  | cons b l ih =>
    intro d _ hall
    rw [List.getLastD_cons]
    exact ih b (hall b (by simp)) (fun x hx => hall x (by simp [hx]))

/-- In an ascending list every member is at most the last element. -/
theorem mem_le_getLastD (l : List Int) (hs : l.Pairwise (· ≤ ·)) :
    ∀ d x, x ∈ l → x ≤ l.getLastD d := by
  induction l with
  | nil =>
    intro d x hx
    cases hx
  | cons b l ih =>
    intro d x hx
    rcases List.pairwise_cons.mp hs with ⟨hall, hrest⟩
    rw [List.getLastD_cons]
    rcases List.mem_cons.mp hx with rfl | hx'
    · exact le_getLastD_of_le x l x le_rfl hall
    · exact ih hrest b x hx'

/-- Once the running previous score is at most the reference age and the
remaining rows are ascending, the scan emits exactly one marker. -/
theorem markerCount_queryScan (userAge : Int) :
    ∀ (rows : List QRow) (lastAge : Int), lastAge ≤ userAge → ScoreAscending rows →
      markerCount (queryScan userAge lastAge rows) = 1 := by
  intro rows
  induction rows with
  | nil =>
    intro lastAge hla _
    simp [queryScan, if_pos hla, markerCount, OutLine.isMarker]
  | cons r rest ih =>
    intro lastAge hla hs
    rcases List.pairwise_cons.mp hs with ⟨hall, hrest⟩
    by_cases h : userAge < r.age
    · rw [queryScan, if_pos ⟨hla, h⟩, queryScan_of_lt userAge rest r.age h hall hrest]
      have h0 := recLines_markerCount rest
      simp [markerCount, List.countP_cons, OutLine.isMarker] at h0 ⊢
      exact h0
    · rw [queryScan, if_neg (fun hc => h hc.2)]
      have h1 := ih r.age (by omega) hrest
      simp [markerCount, List.countP_cons, OutLine.isMarker] at h1 ⊢
      exact h1

/-- **C1** (amended).  For a result list in ascending score order:
(1) whenever the list splits as `pre ++ r :: post` with the score of the
last record of `pre` (0 for an empty prefix) at most the reference score
and the score of `r` strictly above it, the output is exactly the record
lines with one marker line immediately before `r`'s line — `r` is the first
such record, and no other marker appears anywhere; and
(2) if the reference score is at least every record's score, the marker is
printed once after all the record lines — with the proviso (this is the
amendment) that for an empty result list this holds only when the reference
score is non-negative, since the loop's previous-score variable starts at 0
and a reference score below 0 (a query date in the future) produces no
marker at all. -/
theorem c1_marker_placement :
    (∀ (userAge : Int) (pre post : List QRow) (r : QRow),
      ScoreAscending (pre ++ r :: post) →
      (pre.map QRow.age).getLastD 0 ≤ userAge →
      userAge < r.age →
      queryScan userAge 0 (pre ++ r :: post) =
        recLines pre ++ OutLine.marker userAge :: recLines (r :: post))
    ∧ (∀ (userAge : Int) (rows : List QRow),
      (∀ q ∈ rows, q.age ≤ userAge) →
      (rows = [] → 0 ≤ userAge) →
      queryScan userAge 0 rows = recLines rows ++ [OutLine.marker userAge]) := by
  constructor
  · intro userAge pre post r hs hprev hr
    obtain ⟨hpre, hpost', hcross⟩ := List.pairwise_append.mp hs
    obtain ⟨hall, hpost⟩ := List.pairwise_cons.mp hpost'
    have hmap : (pre.map QRow.age).Pairwise (· ≤ ·) := List.pairwise_map.mpr hpre
    have hallpre : ∀ q ∈ pre, q.age ≤ userAge := by
      intro q hq
      have h1 : q.age ≤ (pre.map QRow.age).getLastD 0 :=
        mem_le_getLastD (pre.map QRow.age) hmap 0 q.age (List.mem_map_of_mem _ hq)
      omega
    rw [queryScan_low_run userAge pre (r :: post) 0 hallpre]
    simp only [queryScan, if_pos (And.intro hprev hr)]
    rw [queryScan_of_lt userAge post r.age hr hall hpost]
    simp [recLines, recLine]
  · intro userAge rows h1 h2
    exact queryScan_all_le userAge rows 0 h1 h2

/-- Witness for C1 at the spec's own examples: scores [10, 20, 30] with
reference 15 put the marker between the lines for 10 and 20; scores [5, 10]
with reference 20 put the single marker after both record lines. -/
theorem c1_marker_placement_witness :
    queryScan 15 0 [⟨"a".toList, 10⟩, ⟨"b".toList, 20⟩, ⟨"c".toList, 30⟩] =
      recLines [⟨"a".toList, 10⟩] ++
        OutLine.marker 15 :: recLines [⟨"b".toList, 20⟩, ⟨"c".toList, 30⟩]
    ∧ queryScan 20 0 [⟨"a".toList, 5⟩, ⟨"b".toList, 10⟩] =
      recLines [⟨"a".toList, 5⟩, ⟨"b".toList, 10⟩] ++ [OutLine.marker 20] :=
  ⟨c1_marker_placement.1 15 [⟨"a".toList, 10⟩] [⟨"c".toList, 30⟩] ⟨"b".toList, 20⟩
      (by decide) (by decide) (by decide),
    c1_marker_placement.2 20 [⟨"a".toList, 5⟩, ⟨"b".toList, 10⟩] (by decide) (by decide)⟩

/-- Counterexample to C1 as stated: for an empty result list the claim
demands the marker be printed once after the loop, but with reference score
-1 (the query date one day in the future, an input the program accepts) the
final check `userAge >= lastAge` is `-1 >= 0`, which fails, and no marker
line is printed at all. -/
theorem c1_counterexample : queryScan (-1) 0 [] = [] := by decide

/-- **C2** (amended).  When the reference score ties with a stored record's
score, the marker is printed strictly AFTER that record's line, not before
it: the loop condition `userAge < age` is strict, so the tied record is
printed with no marker in front of it (nor anywhere earlier), and the single
marker appears in the remaining output, after the tied line. -/
theorem c2_tie_marker_after :
    ∀ (userAge : Int) (pre post : List QRow) (n : List Char),
      ScoreAscending (pre ++ ⟨n, userAge⟩ :: post) →
      queryScan userAge 0 (pre ++ ⟨n, userAge⟩ :: post) =
        recLines pre ++ OutLine.record n userAge :: queryScan userAge userAge post
      ∧ markerCount (recLines pre) = 0
      ∧ markerCount (queryScan userAge userAge post) = 1 := by
  intro userAge pre post n hs
  obtain ⟨hpre, hpost', hcross⟩ := List.pairwise_append.mp hs
  obtain ⟨hall, hpost⟩ := List.pairwise_cons.mp hpost'
  have hallpre : ∀ q ∈ pre, q.age ≤ userAge :=
    fun q hq => hcross q hq ⟨n, userAge⟩ (by simp)
  refine ⟨?_, recLines_markerCount pre, markerCount_queryScan userAge post userAge le_rfl hpost⟩
  rw [queryScan_low_run userAge pre (⟨n, userAge⟩ :: post) 0 hallpre]
  have h1 : ¬ ((pre.map QRow.age).getLastD 0 ≤ userAge ∧
      userAge < (QRow.mk n userAge).age) := by
    intro hc
    exact absurd hc.2 (by simp)
  simp only [queryScan, if_neg h1, List.nil_append]

/-- Witness for C2 at reference score 20 tying the stored score of record
"b" in [10, 20, 30]: the output is the "a" line, the tied "b" line, and
then a suffix containing the single marker. -/
theorem c2_tie_marker_after_witness :
    queryScan 20 0 [⟨"a".toList, 10⟩, ⟨"b".toList, 20⟩, ⟨"c".toList, 30⟩] =
      recLines [⟨"a".toList, 10⟩] ++
        OutLine.record "b".toList 20 :: queryScan 20 20 [⟨"c".toList, 30⟩]
    ∧ markerCount (recLines [⟨"a".toList, 10⟩]) = 0
    ∧ markerCount (queryScan 20 20 [⟨"c".toList, 30⟩]) = 1 :=
  c2_tie_marker_after 20 [⟨"a".toList, 10⟩] [⟨"c".toList, 30⟩] "b".toList (by decide)

/-- Counterexample to C2 as stated: with stored scores [10, 20, 30] and
reference score 20 (tying record "b"), the claim says the marker is printed
before the tied record's line; in fact the output's first two lines are the
"a" and "b" record lines with no marker among them, and the single marker
appears only at position 2, after the tied line. -/
theorem c2_counterexample :
    queryScan 20 0 [⟨"a".toList, 10⟩, ⟨"b".toList, 20⟩, ⟨"c".toList, 30⟩] =
      [OutLine.record "a".toList 10, OutLine.record "b".toList 20, OutLine.marker 20,
        OutLine.record "c".toList 30]
    ∧ markerCount
        ((queryScan 20 0 [⟨"a".toList, 10⟩, ⟨"b".toList, 20⟩, ⟨"c".toList, 30⟩]).take 2) = 0 := by
  decide

/-- **C3** (amended).  For a result list in ascending score order the
marker is emitted exactly once — provided the reference score is
non-negative.  (The amendment adds the non-negativity proviso: the
"marker pending" state is represented by `userAge >= lastAge` with
`lastAge` initialised to 0, so a negative reference score can start the
scan with the flag already effectively cleared and the marker is then
never emitted; see the counterexample.) -/
theorem c3_marker_exactly_once :
    ∀ (userAge : Int) (rows : List QRow), 0 ≤ userAge → ScoreAscending rows →
      markerCount (queryScan userAge 0 rows) = 1 :=
  fun userAge rows h hs => markerCount_queryScan userAge rows 0 h hs

/-- Witness for C3: reference score 15 against ascending scores
[10, 20, 30] yields exactly one marker line. -/
theorem c3_marker_exactly_once_witness :
    markerCount (queryScan 15 0 [⟨"a".toList, 10⟩, ⟨"b".toList, 20⟩, ⟨"c".toList, 30⟩]) = 1 :=
  c3_marker_exactly_once 15 [⟨"a".toList, 10⟩, ⟨"b".toList, 20⟩, ⟨"c".toList, 30⟩]
    (by decide) (by decide)

/-- Counterexample to C3 as stated: reference score -5 (query date in the
future) against the ascending one-record result list with score 10 — which
`ZRANGEBYSCORE` does return for a window of 365 days — emits zero marker
lines, not exactly one: the in-loop condition `-5 >= 0` fails and the
after-loop condition `-5 >= 10` fails. -/
theorem c3_counterexample :
    markerCount (queryScan (-5) 0 [⟨"a".toList, 10⟩]) = 0 := by decide

/-- **C4** (amended).  For every non-negative integer day count the
formatter computes exactly `years = floor(days / 365.25)` (as a natural
number, `4 * days / 1461`) and `remainder = days mod 365.25` truncated to
an integer (`4 * days % 1461 / 4`), but renders each number right-justified
in a 3-character field (`%3d`): 0 days formats as `"  0 years and   0
days"` and 365 days as `"  0 years and 365 days"` — not the unpadded
strings of the claim. -/
theorem c4_format_floor_division :
    (∀ days : Nat,
      formatAgeInYearsAndDays (days : Int) =
        pad3 ((4 * days / 1461 : Nat) : Int) ++ " years and " ++
          pad3 ((4 * days % 1461 / 4 : Nat) : Int) ++ " days")
    ∧ formatAgeInYearsAndDays 0 = "  0 years and   0 days"
    ∧ formatAgeInYearsAndDays 365 = "  0 years and 365 days" := by
  refine ⟨?_, by decide, by decide⟩
  intro days
  have h1 : (4 : Int) * (days : Int) = ((4 * days : Nat) : Int) := by
    push_cast
    ring
  have hy : ((4 * days : Nat) : Int).tdiv (1461 : Int) = ((4 * days / 1461 : Nat) : Int) := rfl
  have h2 : ((4 * days : Nat) : Int) - 1461 * ((4 * days / 1461 : Nat) : Int) =
      ((4 * days % 1461 : Nat) : Int) := by
    omega
  have hd : ((4 * days % 1461 : Nat) : Int).tdiv (4 : Int) =
      ((4 * days % 1461 / 4 : Nat) : Int) := rfl
  show pad3 ((4 * (days : Int)).tdiv 1461) ++ " years and " ++
      pad3 ((4 * (days : Int) - 1461 * ((4 * (days : Int)).tdiv 1461)).tdiv 4) ++ " days" = _
  rw [h1, hy, h2, hd]

/-- Counterexample to C4 as stated: formatting 0 days does not yield the
claim's exact string `"0 years and 0 days"`; the `%3d` verbs pad each
number to width 3. -/
theorem c4_counterexample : formatAgeInYearsAndDays 0 ≠ "0 years and 0 days" := by decide

/-- **C5** (amended).  Formatting 731 days yields `"  2 years and   0
days"`: 731 / 365.25 = 2.0013... truncates to 2 years, and 731 mod 365.25
= 0.5 truncates to 0 days. -/
theorem c5_format_731 : formatAgeInYearsAndDays 731 = "  2 years and   0 days" := by decide

/-- Counterexample to C5 as stated: 731 days does not format as
`"1 years and 365 days"` (731 exceeds 2 x 365.25 = 730.5, so the year
count is already 2, and the rendered numbers are padded). -/
theorem c5_counterexample : formatAgeInYearsAndDays 731 ≠ "1 years and 365 days" := by decide

/-- Unfold the Boolean leap-year test to its arithmetic meaning. -/
theorem isLeapYear_iff (y : Nat) :
    isLeapYear y = true ↔ (y % 4 = 0 ∧ (y % 100 ≠ 0 ∨ y % 400 = 0)) := by
  simp [isLeapYear]

/-- `daysBeforeYear` is monotone in the year. -/
theorem daysBeforeYear_mono {y y' : Nat} (h : y ≤ y') :
    daysBeforeYear y ≤ daysBeforeYear y' := by
  have e1 : (y + 399) / 4 ≤ (y' + 399) / 4 := Nat.div_le_div_right (by omega)
  have e3 : (y + 399) / 400 ≤ (y' + 399) / 400 := Nat.div_le_div_right (by omega)
  have e4 : (y' + 399) / 100 ≤ (y + 399) / 100 + (y' - y) := by omega
  unfold daysBeforeYear
  omega

set_option maxHeartbeats 1000000 in
/-- Year `y` contributes 365 days, plus one if it is a leap year (the leap
day sits inside year `y`, between the two January firsts). -/
theorem daysBeforeYear_succ (y : Nat) :
    daysBeforeYear (y + 1) = daysBeforeYear y + 365 + (if isLeapYear y then 1 else 0) := by
  by_cases h : isLeapYear y
  · rw [if_pos h]
    have h' := (isLeapYear_iff y).mp h
    unfold daysBeforeYear
    omega
  · rw [if_neg h]
    have h' : ¬ (y % 4 = 0 ∧ (y % 100 ≠ 0 ∨ y % 400 = 0)) :=
      fun hc => h ((isLeapYear_iff y).mpr hc)
    unfold daysBeforeYear
    omega

/-- Recurrence for `daysBeforeMonth` at a positive month. -/
theorem daysBeforeMonth_step (y : Nat) : ∀ m : Nat, 1 ≤ m →
    daysBeforeMonth y (m + 1) = daysBeforeMonth y m + daysInMonth y m := by
  intro m h
  match m, h with
  | m + 1, _ => rfl

/-- `daysBeforeMonth` grows step by step. -/
theorem daysBeforeMonth_le_succ (y m : Nat) :
    daysBeforeMonth y m ≤ daysBeforeMonth y (m + 1) := by
  match m with
  | 0 => simp [daysBeforeMonth]
  | m + 1 =>
    rw [daysBeforeMonth_step y (m + 1) (by omega)]
    omega

/-- `daysBeforeMonth` is monotone in the month. -/
theorem daysBeforeMonth_mono (y : Nat) : Monotone (daysBeforeMonth y) :=
  monotone_nat_of_le_succ (daysBeforeMonth_le_succ y)

/-- The twelve months of year `y` total 365 days plus the leap day. -/
theorem daysBeforeMonth_13 (y : Nat) :
    daysBeforeMonth y 13 = 365 + (if isLeapYear y then 1 else 0) := by
  have e : daysBeforeMonth y 13 =
      0 + 31 + daysInMonth y 2 + 31 + 30 + 31 + 30 + 31 + 31 + 30 + 31 + 30 + 31 := rfl
  have d2 : daysInMonth y 2 = if isLeapYear y then 29 else 28 := rfl
  rw [e, d2]
  by_cases h : isLeapYear y <;> simp [h]

/-- A valid date's offset within its year is below the year's length. -/
theorem dayNumber_within_year (dt : Date) (hv : dt.valid) :
    daysBeforeMonth dt.year dt.month + (dt.day - 1) <
      365 + (if isLeapYear dt.year then 1 else 0) := by
  obtain ⟨hm1, hm2, hd1, hd2⟩ := hv
  have hstep := daysBeforeMonth_step dt.year dt.month hm1
  have hmono : daysBeforeMonth dt.year (dt.month + 1) ≤ daysBeforeMonth dt.year 13 :=
    daysBeforeMonth_mono dt.year (by omega)
  have h13 := daysBeforeMonth_13 dt.year
  omega

/-- Chronological order of valid dates implies order of day numbers. -/
theorem dayNumber_mono {a b : Date} (ha : a.valid) (hb : b.valid) (hle : Date.le a b) :
    dayNumber a ≤ dayNumber b := by
  obtain ⟨ham1, ham2, had1, had2⟩ := ha
  obtain ⟨hbm1, hbm2, hbd1, hbd2⟩ := hb
  unfold dayNumber
  rcases hle with hy | ⟨hy, hrest⟩
  · have h1 := dayNumber_within_year a ⟨ham1, ham2, had1, had2⟩
    have h2 := daysBeforeYear_succ a.year
    have h3 : daysBeforeYear (a.year + 1) ≤ daysBeforeYear b.year :=
      daysBeforeYear_mono (by omega)
    omega
  · rw [hy]
    rw [hy] at had2
    rcases hrest with hm | ⟨hm, hd⟩
    · have hstep := daysBeforeMonth_step b.year a.month ham1
      have hmono : daysBeforeMonth b.year (a.month + 1) ≤ daysBeforeMonth b.year b.month :=
        daysBeforeMonth_mono b.year (by omega)
      omega
    · rw [hm]
      omega

/-- Inversion for the range validation. -/
theorem mkValidDate_valid (y m d : Nat) (dt : Date) (h : mkValidDate y m d = some dt) :
    dt.valid := by
  unfold mkValidDate at h
  split at h
  · cases h
    assumption
  · cases h

/-- Any date accepted by the parser is calendar-valid. -/
theorem parseDate_valid (s : List Char) (dt : Date) (h : parseDate s = some dt) :
    dt.valid := by
  unfold parseDate at h
  split at h
  · split at h
    · exact mkValidDate_valid _ _ _ _ h
    · cases h
  · cases h

/-- Any date string accepted by the parser contains no comma (it is ten
characters, each a digit or a dash). -/
theorem parseDate_no_comma (s : List Char) (dt : Date) (h : parseDate s = some dt) :
    ',' ∉ s := by
  unfold parseDate at h
  split at h
  · rename_i y1 y2 y3 y4 s1 m1 m2 s2 d1 d2
    split at h
    · rename_i hcond
      simp only [Bool.and_eq_true, beq_iff_eq] at hcond
      obtain ⟨⟨⟨⟨⟨⟨⟨⟨⟨hy1, hy2⟩, hy3⟩, hy4⟩, hs1⟩, hm1⟩, hm2⟩, hs2⟩, hd1⟩, hd2⟩ := hcond
      intro hmem
      simp only [List.mem_cons, List.not_mem_nil, or_false] at hmem
      rcases hmem with rfl | rfl | rfl | rfl | rfl | rfl | rfl | rfl | rfl | rfl <;>
        first
          | exact absurd hy1 (by decide)
          | exact absurd hy2 (by decide)
          | exact absurd hy3 (by decide)
          | exact absurd hy4 (by decide)
          | exact absurd hs1 (by decide)
          | exact absurd hm1 (by decide)
          | exact absurd hm2 (by decide)
          | exact absurd hs2 (by decide)
          | exact absurd hd1 (by decide)
          | exact absurd hd2 (by decide)
    · cases h
  · cases h

/-- **C6** (confirmed).  Signed day-count algebra: for valid dates in
chronological order the count is non-negative; reversing the arguments
negates the count; and the count from a date to itself is zero. -/
theorem c6_day_count_algebra :
    (∀ (s1 s2 : List Char) (a b : Date), parseDate s1 = some a → parseDate s2 = some b →
      Date.le a b → ∃ n : Int, getAgeInDays s1 s2 = some n ∧ 0 ≤ n)
    ∧ (∀ (s1 s2 : List Char) (n : Int), getAgeInDays s1 s2 = some n →
      getAgeInDays s2 s1 = some (-n))
    ∧ (∀ (s : List Char) (a : Date), parseDate s = some a → getAgeInDays s s = some 0) := by
  refine ⟨?_, ?_, ?_⟩
  · intro s1 s2 a b h1 h2 hle
    refine ⟨(dayNumber b : Int) - (dayNumber a : Int), ?_, ?_⟩
    · unfold getAgeInDays
      rw [h1, h2]
    · have := dayNumber_mono (parseDate_valid s1 a h1) (parseDate_valid s2 b h2) hle
      omega
  · intro s1 s2 n h
    rcases hA : parseDate s1 with _ | a <;> rcases hB : parseDate s2 with _ | b <;>
      simp [getAgeInDays, hA, hB] at h ⊢
    omega
  · intro s a h
    simp [getAgeInDays, h]

/-- Witness for C6 at concrete dates: 2000-01-01 to 2003-03-05 is a
non-negative count, 2000-01-02 back to 2000-01-01 is the negation of the
forward count 1, and 2000-01-01 to itself is 0. -/
theorem c6_day_count_algebra_witness :
    (∃ n : Int, getAgeInDays "2000-01-01".toList "2003-03-05".toList = some n ∧ 0 ≤ n)
    ∧ getAgeInDays "2000-01-02".toList "2000-01-01".toList = some (-1)
    ∧ getAgeInDays "2000-01-01".toList "2000-01-01".toList = some 0 :=
  ⟨c6_day_count_algebra.1 "2000-01-01".toList "2003-03-05".toList ⟨2000, 1, 1⟩ ⟨2003, 3, 5⟩
      (by decide) (by decide) (by decide),
    c6_day_count_algebra.2.1 "2000-01-01".toList "2000-01-02".toList 1 (by decide),
    c6_day_count_algebra.2.2 "2000-01-01".toList ⟨2000, 1, 1⟩ (by decide)⟩

/-- Number of entries for a given member in the store. -/
def memberCount (m : List Char) (st : Store) : Nat := (st.map Prod.snd).count m

/-- Inserting a scored member adds exactly one entry for that member. -/
theorem memberCount_insertByScore (s : Int) (mem m : List Char) :
    ∀ st : Store, memberCount m (insertByScore s mem st) =
      memberCount m st + (if m = mem then 1 else 0) := by
  intro st
  induction st with
  | nil =>
    by_cases h : m = mem <;> simp [insertByScore, memberCount, h]
  | cons e st ih =>
    by_cases h : e.1 ≤ s
    · by_cases h2 : m = mem <;>
        simp [insertByScore, h, memberCount, List.count_cons, h2] at ih ⊢ <;> omega
    · by_cases h2 : m = mem <;>
        simp [insertByScore, h, memberCount, List.count_cons, h2]

/-- Filtering out a member removes exactly its entries. -/
theorem memberCount_filter (mem m : List Char) :
    ∀ st : Store, memberCount m (st.filter (fun e => !(e.2 == mem))) =
      if m = mem then 0 else memberCount m st := by
  intro st
  induction st with
  | nil => by_cases h : m = mem <;> simp [memberCount, h]
  | cons e st ih =>
    by_cases hq : e.2 = mem
    · by_cases h : m = mem <;>
        simp [List.filter_cons, hq, memberCount, List.count_cons, h] at ih ⊢ <;>
        simp [ih]
    · by_cases h : m = mem <;>
        simp [List.filter_cons, hq, memberCount, List.count_cons, h] at ih ⊢ <;>
        simp [ih]

/-- `ZADD` semantics on entry counts: afterwards the added member has
exactly one entry and every other member's count is unchanged. -/
theorem memberCount_zadd (st : Store) (s : Int) (mem m : List Char) :
    memberCount m (zadd st s mem) = if m = mem then 1 else memberCount m st := by
  unfold zadd
  rw [memberCount_insertByScore, memberCount_filter]
  by_cases h : m = mem <;> simp [h]

/-- After the import fold, a member has one entry if it is the
serialization of some imported record, and otherwise keeps its count from
the starting store. -/
theorem importFold_memberCount :
    ∀ (records : List Person) (st0 st : Store), importFold st0 records = some st →
      ∀ m, memberCount m st =
        if m ∈ records.map Person.string then 1 else memberCount m st0 := by
  intro records
  induction records with
  | nil =>
    intro st0 st h m
    cases h
    simp
  | cons r rest ih =>
    intro st0 st h m
    unfold importFold at h
    rcases hage : getAgeInDays r.BirthDate r.DeathDate with _ | age <;> rw [hage] at h
    · cases h
    · have hm := ih (zadd st0 age r.string) st h m
      rw [memberCount_zadd] at hm
      by_cases h1 : m ∈ rest.map Person.string
      · simp [h1] at hm
        simp [List.map_cons, List.mem_cons, h1, hm]
      · by_cases h2 : m = r.string
        · simp [h1, h2] at hm
          simp [List.map_cons, List.mem_cons, h2, hm]
        · simp [h1, h2] at hm
          simp [List.map_cons, List.mem_cons, h1, h2, hm]

/-- **C7** (confirmed).  Importing the same record list twice leaves the
store exactly as after one import (the transaction starts with `DEL`, so
the previous dataset — whatever it was — is discarded), and after a
successful import the store has exactly one entry per imported record's
serialization and no entry for anything else. -/
theorem c7_import_idempotent :
    ∀ (prev : Store) (records : List Person) (st : Store),
      storeRecordsInRedis prev records = some st →
      storeRecordsInRedis st records = some st
      ∧ (∀ r ∈ records, memberCount r.string st = 1)
      ∧ (∀ m, m ∉ records.map Person.string → memberCount m st = 0) := by
  intro prev records st h
  have hcount := importFold_memberCount records [] st h
  refine ⟨h, ?_, ?_⟩
  · intro r hr
    have hmem : r.string ∈ records.map Person.string := List.mem_map_of_mem _ hr
    rw [hcount r.string, if_pos hmem]
  · intro m hm
    rw [hcount m, if_neg hm]
    rfl

/-- Witness for C7: importing the single record ("A", 2000-01-01,
2000-01-02) twice in a row gives the same one-entry store as importing it
once, and that entry is the record's serialization. -/
theorem c7_import_idempotent_witness :
    storeRecordsInRedis []
        [⟨"A".toList, "2000-01-01".toList, "2000-01-02".toList⟩] =
      some [(1, "A,2000-01-01,2000-01-02".toList)]
    ∧ storeRecordsInRedis [(1, "A,2000-01-01,2000-01-02".toList)]
        [⟨"A".toList, "2000-01-01".toList, "2000-01-02".toList⟩] =
      some [(1, "A,2000-01-01,2000-01-02".toList)]
    ∧ memberCount
        (Person.string ⟨"A".toList, "2000-01-01".toList, "2000-01-02".toList⟩)
        [(1, "A,2000-01-01,2000-01-02".toList)] = 1 := by
  have h : storeRecordsInRedis []
      [⟨"A".toList, "2000-01-01".toList, "2000-01-02".toList⟩] =
      some [(1, "A,2000-01-01,2000-01-02".toList)] := by decide
  obtain ⟨ha, hb, _⟩ := c7_import_idempotent []
    [⟨"A".toList, "2000-01-01".toList, "2000-01-02".toList⟩]
    [(1, "A,2000-01-01,2000-01-02".toList)] h
  exact ⟨h, ha, hb ⟨"A".toList, "2000-01-01".toList, "2000-01-02".toList⟩ (by simp)⟩

/-- Splitting a comma-free string yields the single field. -/
theorem splitOnComma_no_comma : ∀ a : List Char, ',' ∉ a → splitOnComma a = [a] := by
  intro a
  induction a with
  | nil => intro _; rfl
  | cons c rest ih =>
    intro h
    have hc : ¬ c = ',' := fun e => h (by simp [e])
    have hr : ',' ∉ rest := fun e => h (by simp [e])
    simp only [splitOnComma, if_neg hc, ih hr]

/-- Splitting peels off a comma-free first field. -/
theorem splitOnComma_append : ∀ (a b : List Char), ',' ∉ a →
    splitOnComma (a ++ ',' :: b) = a :: splitOnComma b := by
  intro a
  induction a with
  | nil =>
    intro b _
    simp [splitOnComma]
  | cons c rest ih =>
    intro b h
    have hc : ¬ c = ',' := fun e => h (by simp [e])
    have hr : ',' ∉ rest := fun e => h (by simp [e])
    simp only [List.cons_append, splitOnComma, if_neg hc, List.append_eq]
    rw [ih b hr]

/-- **C9** (confirmed).  A record whose name is comma-free and whose date
fields are calendar dates (which contain no comma) serializes and splits
back to exactly its three fields in order; and a record whose name contains
a comma breaks the round-trip — the acknowledged format limitation. -/
theorem c9_serialization_roundtrip :
    (∀ (p : Person) (b d : Date), ',' ∉ p.Name →
      parseDate p.BirthDate = some b → parseDate p.DeathDate = some d →
      splitOnComma p.string = [p.Name, p.BirthDate, p.DeathDate])
    ∧ (∃ p : Person, ',' ∈ p.Name ∧
      splitOnComma p.string ≠ [p.Name, p.BirthDate, p.DeathDate]) := by
  constructor
  · intro p b d hn hb hd
    have h1 : ',' ∉ p.BirthDate := parseDate_no_comma _ _ hb
    have h2 : ',' ∉ p.DeathDate := parseDate_no_comma _ _ hd
    unfold Person.string
    rw [List.append_assoc, List.cons_append,
      splitOnComma_append _ _ hn, splitOnComma_append _ _ h1, splitOnComma_no_comma _ h2]
  · exact ⟨⟨"x,y".toList, "2000-01-01".toList, "2000-01-02".toList⟩, by decide, by decide⟩

/-- Witness for C9: the record ("A", 2000-01-01, 2000-01-02) round-trips
through serialization and comma-splitting. -/
theorem c9_serialization_roundtrip_witness :
    splitOnComma
        (Person.string ⟨"A".toList, "2000-01-01".toList, "2000-01-02".toList⟩) =
      ["A".toList, "2000-01-01".toList, "2000-01-02".toList] :=
  c9_serialization_roundtrip.1 ⟨"A".toList, "2000-01-01".toList, "2000-01-02".toList⟩
    ⟨2000, 1, 1⟩ ⟨2000, 1, 2⟩ (by decide) (by decide) (by decide)

/-- A string with `n` commas splits into `n + 1` fields. -/
theorem splitOnComma_length : ∀ l : List Char,
    (splitOnComma l).length = l.count ',' + 1 := by
  intro l
  induction l with
  | nil => rfl
  | cons c rest ih =>
    by_cases hc : c = ','
    · simp [splitOnComma, hc, List.count_cons, ih]
    · rcases hsplit : splitOnComma rest with _ | ⟨f, fs⟩
      · rw [hsplit] at ih
        simp at ih
      · rw [hsplit] at ih
        simp only [splitOnComma, if_neg hc, hsplit]
        simp [List.count_cons, hc] at ih ⊢
        omega

/-- All rows with at least three fields import without an abort. -/
theorem readCSVFileContents_ok :
    ∀ csvData : List (List (List Char)), (∀ row ∈ csvData, 3 ≤ row.length) →
      ∃ ps, readCSVFileContents csvData = Except.ok ps := by
  intro csvData
  induction csvData with
  | nil =>
    intro _
    exact ⟨[], rfl⟩
  | cons row rest ih =>
    intro h
    obtain ⟨ps, hps⟩ := ih (fun r hr => h r (by simp [hr]))
    have hlen : 3 ≤ row.length := h row (by simp)
    rcases e0 : row[0]? with _ | f0
    · rw [List.getElem?_eq_none_iff] at e0
      omega
    rcases e1 : row[1]? with _ | f1
    · rw [List.getElem?_eq_none_iff] at e1
      omega
    rcases e2 : row[2]? with _ | f2
    · rw [List.getElem?_eq_none_iff] at e2
      omega
    refine ⟨⟨f0, f1, f2⟩ :: ps, ?_⟩
    simp [readCSVFileContents, rowRecord, e0, e1, e2, hps]
    rfl

/-- **C10** (confirmed).  The query loop's three field indexings are in
bounds for any fetched member with at least two commas; every serialized
record has at least two commas; the importer's three row indexings succeed
whenever every CSV row has at least three fields; and a well-formed CSV
whose rows uniformly have two fields aborts the importer with an
index-out-of-range abort, not a logged fatal error. -/
theorem c10_field_index_bounds :
    (∀ row : List Char, 2 ≤ row.count ',' →
      memberRow row ≠ Except.error GoError.indexOutOfRange)
    ∧ (∀ p : Person, 2 ≤ (p.string).count ',')
    ∧ (∀ csvData : List (List (List Char)), (∀ row ∈ csvData, 3 ≤ row.length) →
      ∃ ps, readCSVFileContents csvData = Except.ok ps)
    ∧ readCSVFileContents [["a".toList, "b".toList]] = Except.error GoError.indexOutOfRange := by
  refine ⟨?_, ?_, readCSVFileContents_ok, by rfl⟩
  · intro row h
    have hlen : 3 ≤ (splitOnComma row).length := by
      rw [splitOnComma_length]
      omega
    rcases e0 : (splitOnComma row)[0]? with _ | f0
    · rw [List.getElem?_eq_none_iff] at e0
      omega
    rcases e1 : (splitOnComma row)[1]? with _ | f1
    · rw [List.getElem?_eq_none_iff] at e1
      omega
    rcases e2 : (splitOnComma row)[2]? with _ | f2
    · rw [List.getElem?_eq_none_iff] at e2
      omega
    simp only [memberRow, e0, e1, e2]
    rcases ha : getAgeInDays f1 f2 with _ | age <;> simp
  · intro p
    unfold Person.string
    simp [List.count_append, List.count_cons]
    omega

/-- Witness for C10: a serialized member (two commas) is safely split and
indexed by the query loop, and a CSV whose single row has three fields
imports without an abort. -/
theorem c10_field_index_bounds_witness :
    memberRow "A,2000-01-01,2000-01-02".toList ≠ Except.error GoError.indexOutOfRange
    ∧ ∃ ps, readCSVFileContents [["a".toList, "b".toList, "c".toList]] = Except.ok ps :=
  ⟨c10_field_index_bounds.1 "A,2000-01-01,2000-01-02".toList (by decide),
    c10_field_index_bounds.2.2.1 [["a".toList, "b".toList, "c".toList]] (by decide)⟩

/-- When every fetched member is extracted without an abort, the result
loop computes exactly the pure marker scan of the extracted rows (this
justifies stating the marker-placement properties over `queryScan`). -/
theorem doQueryLoop_eq_queryScan (userAge : Int) :
    ∀ (results : List (List Char)) (rows : List QRow) (lastAge : Int),
      results.map memberRow = rows.map Except.ok →
      doQueryLoop userAge lastAge results = Except.ok (queryScan userAge lastAge rows) := by
  intro results
  induction results with
  | nil =>
    intro rows lastAge h
    simp only [List.map_nil] at h
    cases rows with
    | nil => rfl
    | cons r rs => simp at h
  | cons row rest ih =>
    intro rows lastAge h
    cases rows with
    | nil => simp at h
    | cons r rs =>
      simp only [List.map_cons, List.cons.injEq] at h
      obtain ⟨h1, h2⟩ := h
      simp only [doQueryLoop, h1, ih rs r.age h2, queryScan]

/-- The loop's output on a single well-formed member: an optional leading
marker, the record line, and an optional trailing marker. -/
theorem doQueryLoop_singleton (userAge lastAge : Int) (row : List Char) (r : QRow)
    (h : memberRow row = Except.ok r) :
    doQueryLoop userAge lastAge [row] = Except.ok
      ((if lastAge ≤ userAge ∧ userAge < r.age then [OutLine.marker userAge] else []) ++
        OutLine.record r.name r.age ::
          (if r.age ≤ userAge then [OutLine.marker userAge] else [])) := by
  rw [doQueryLoop_eq_queryScan userAge [row] [r] lastAge (by simp [h])]
  simp [queryScan]

/-- **C8** (amended).  After importing the single record
("A", 2000-01-01, 2000-01-02) — stored with score 1 — a query with
reference date 2000-01-01 retrieves exactly that record, with computed
death-age 1 day, whenever the fetch window `[userAge - w, userAge + w]`
contains the stored score 1, where `userAge` is the day count from the
reference date to the current date.  (The amendment: a window of "at least
1 day" is not sufficient, because the window is centred on `userAge`, the
reference-to-today day count, not on 0; see the counterexample.) -/
theorem c8_roundtrip_query :
    ∀ (nowS : List Char) (userAge w : Int) (prev st : Store),
      getAgeInDays "2000-01-01".toList nowS = some userAge →
      storeRecordsInRedis prev
          [⟨"A".toList, "2000-01-01".toList, "2000-01-02".toList⟩] = some st →
      userAge - w ≤ 1 → 1 ≤ userAge + w →
      zrangebyscore st (userAge - w) (userAge + w) = ["A,2000-01-01,2000-01-02".toList]
      ∧ ∃ lines,
          doQueryLines userAge (zrangebyscore st (userAge - w) (userAge + w)) =
            Except.ok lines
          ∧ lines.filter OutLine.isRecord = [OutLine.record "A".toList 1] := by
  intro nowS userAge w prev st hage himp hlo hhi
  have himp' : importFold []
      [⟨"A".toList, "2000-01-01".toList, "2000-01-02".toList⟩] =
      some [((1 : Int), "A,2000-01-01,2000-01-02".toList)] := by decide
  unfold storeRecordsInRedis at himp
  rw [himp'] at himp
  have hst : st = [((1 : Int), "A,2000-01-01,2000-01-02".toList)] :=
    (Option.some.inj himp).symm
  subst hst
  have hfetch : zrangebyscore [((1 : Int), "A,2000-01-01,2000-01-02".toList)]
      (userAge - w) (userAge + w) = ["A,2000-01-01,2000-01-02".toList] := by
    have hc : decide (userAge - w ≤ (1 : Int) ∧ (1 : Int) ≤ userAge + w) = true := by
      simp only [decide_eq_true_eq]
      exact ⟨hlo, hhi⟩
    unfold zrangebyscore
    simp only [List.filter_cons, List.filter_nil, hc, if_true]
    simp
  refine ⟨hfetch, ?_⟩
  rw [hfetch]
  have hrow : memberRow "A,2000-01-01,2000-01-02".toList =
      Except.ok ⟨"A".toList, 1⟩ := by rfl
  unfold doQueryLines
  rw [doQueryLoop_singleton userAge 0 _ _ hrow]
  refine ⟨_, rfl, ?_⟩
  by_cases h1 : (0 : Int) ≤ userAge ∧ userAge < 1 <;> by_cases h2 : (1 : Int) ≤ userAge <;>
    simp [h1, h2, OutLine.isRecord, List.filter_cons]

/-- Witness for C8 with the current date 2000-01-02 (reference score 1) and
window 1: the fetch window [0, 2] contains the stored score 1, the record
is retrieved and printed with death-age 1 day. -/
theorem c8_roundtrip_query_witness :
    zrangebyscore [((1 : Int), "A,2000-01-01,2000-01-02".toList)] (1 - 1) (1 + 1) =
      ["A,2000-01-01,2000-01-02".toList]
    ∧ ∃ lines,
        doQueryLines 1
            (zrangebyscore [((1 : Int), "A,2000-01-01,2000-01-02".toList)] (1 - 1) (1 + 1)) =
          Except.ok lines
        ∧ lines.filter OutLine.isRecord = [OutLine.record "A".toList 1] :=
  c8_roundtrip_query "2000-01-02".toList 1 1 []
    [((1 : Int), "A,2000-01-01,2000-01-02".toList)]
    (by decide) (by decide) (by decide) (by decide)

/-- Counterexample to C8 as stated: with the current date 2026-10-11 the
reference score for 2000-01-01 is 9780, so the claim's "any window of at
least 1 day" — here exactly 1 day, giving the fetch window [9779, 9781] —
retrieves nothing at all, because the lone stored record has score 1. -/
theorem c8_counterexample :
    getAgeInDays "2000-01-01".toList "2026-10-11".toList = some 9780
    ∧ storeRecordsInRedis []
        [⟨"A".toList, "2000-01-01".toList, "2000-01-02".toList⟩] =
      some [((1 : Int), "A,2000-01-01,2000-01-02".toList)]
    ∧ zrangebyscore [((1 : Int), "A,2000-01-01,2000-01-02".toList)]
        (9780 - 1) (9780 + 1) = [] :=
  ⟨by decide, by decide, by decide⟩
